import Mathlib

/-!
Shallow embedding of `packages/codex-rotate/index.ts`: a CLI that keeps a
pool of Codex OAuth credential sets and rotates which one is mirrored into
the live auth file.  The filesystem is modelled as the contents of the two
files the tool touches (the pool file and the live credential file); each
command handler is a function from that state to an `Except` of the new
state, where `Except.error (msg, fsAtExit)` models a process exit with a
diagnostic: `fsAtExit` is what the two files hold at that moment (for the
`die` calls nothing has been written yet, while the report line of
`next`/`prev` can crash after both files were written).
-/

/-! ## JSON values (the image of `JSON.parse`) -/

/-- A parsed JSON document, as produced by `JSON.parse`.  Numbers keep their
source lexeme; the tool never inspects a numeric value. -/
inductive Json where
  | null : Json
  | bool : Bool → Json
  | num : String → Json
  | str : String → Json
  | arr : List Json → Json
  | obj : List (String × Json) → Json
deriving Repr

/-- Property access `j[k]` on a parsed JSON value: a lookup that yields the
last binding of the key when `j` is an object (later duplicate keys win, as
in `JSON.parse`) and `undefined` (here `none`) on any non-object. -/
def jget (j : Json) (k : String) : Option Json :=
  match j with
  | .obj fields => (fields.reverse.find? (fun p => p.1 == k)).map (fun p => p.2)
  | _ => none

/-! ## JSON lexing -/

inductive Tok where
  | lbrace | rbrace | lbrack | rbrack | colon | comma
  | str (s : String) | numT (s : String) | nullT | trueT | falseT
deriving Repr

def isWs (c : Char) : Bool :=
  c = ' ' || c = '\t' || c = '\n' || Char.toNat c = 13

/-- Value of a hexadecimal digit, by code point: 48–57 are the decimal
digits, 97–102 and 65–70 the lower/upper-case letters a–f. -/
def hexVal (c : Char) : Option Nat :=
  let n := c.toNat
  if 48 ≤ n && n ≤ 57 then some (n - 48)
  else if 97 ≤ n && n ≤ 102 then some (n - 87)
  else if 65 ≤ n && n ≤ 70 then some (n - 55)
  else none

/-- Lex a JSON string body (the opening quote already consumed), handling the
escape sequences `JSON.parse` accepts and rejecting raw control characters. -/
def tokStr : List Char → List Char → Option (String × List Char)
  | [], _ => none
  | c :: cs, acc =>
    if c = '"' then some (String.mk acc.reverse, cs)
    else if c = '\\' then
      match cs with
      | [] => none
      | e :: cs' =>
        if e = '"' then tokStr cs' ('"' :: acc)
        else if e = '\\' then tokStr cs' ('\\' :: acc)
        else if e = '/' then tokStr cs' ('/' :: acc)
        else if e = 'b' then tokStr cs' (Char.ofNat 8 :: acc)
        else if e = 'f' then tokStr cs' (Char.ofNat 12 :: acc)
        else if e = 'n' then tokStr cs' ('\n' :: acc)
        else if e = 'r' then tokStr cs' (Char.ofNat 13 :: acc)
        else if e = 't' then tokStr cs' ('\t' :: acc)
        else if e = 'u' then
          match cs' with
          | h1 :: h2 :: h3 :: h4 :: cs'' =>
            match hexVal h1, hexVal h2, hexVal h3, hexVal h4 with
            | some a, some b, some c2, some d =>
              tokStr cs'' (Char.ofNat (a * 4096 + b * 256 + c2 * 16 + d) :: acc)
            | _, _, _, _ => none
          | _ => none
        else none
    else if c.toNat < 32 then none
    else tokStr cs (c :: acc)

/-- Consume a maximal run of decimal digits. -/
def takeDigits : List Char → (List Char × List Char)
  | [] => ([], [])
  | c :: cs =>
    if c.isDigit then
      let p := takeDigits cs
      (c :: p.1, p.2)
    else ([], c :: cs)

/-- Lex one JSON number (strict grammar: `-?int frac? exp?`, no leading
zeros), returning its lexeme. -/
def numLex (cs : List Char) : Option (String × List Char) :=
  let signAndRest : List Char × List Char :=
    match cs with
    | '-' :: r => (['-'], r)
    | _ => ([], cs)
  match signAndRest.2 with
  | [] => none
  | c :: r =>
    if c.isDigit then
      let ipRest : List Char × List Char :=
        if c = '0' then ([c], r)
        else
          let p := takeDigits r
          (c :: p.1, p.2)
      let fracRes : Option (List Char × List Char) :=
        match ipRest.2 with
        | '.' :: r2 =>
          let p := takeDigits r2
          if p.1.isEmpty then none else some ('.' :: p.1, p.2)
        | _ => some ([], ipRest.2)
      match fracRes with
      | none => none
      | some fp =>
        let expRes : Option (List Char × List Char) :=
          match fp.2 with
          | e :: r3 =>
            if e = 'e' || e = 'E' then
              let sgnRest : List Char × List Char :=
                match r3 with
                | s :: r4 => if s = '+' || s = '-' then ([s], r4) else ([], r3)
                | [] => ([], r3)
              let p := takeDigits sgnRest.2
              if p.1.isEmpty then none
              else some (e :: (sgnRest.1 ++ p.1), p.2)
            else some ([], fp.2)
          | [] => some ([], fp.2)
        match expRes with
        | none => none
        | some ep =>
          some (String.mk (signAndRest.1 ++ ipRest.1 ++ fp.1 ++ ep.1), ep.2)
    else none

/-- Tokenize a JSON document; fuel-indexed so every recursion is structural
(each step consumes at least one character, so `length + 1` fuel suffices). -/
def tokenize : Nat → List Char → Option (List Tok)
  | 0, _ => none
  | _, [] => some []
  | f + 1, c :: cs =>
    if isWs c then tokenize f cs
    else if c = '\x7b' then (tokenize f cs).map (Tok.lbrace :: ·)
    else if c = '\x7d' then (tokenize f cs).map (Tok.rbrace :: ·)
    else if c = '[' then (tokenize f cs).map (Tok.lbrack :: ·)
    else if c = ']' then (tokenize f cs).map (Tok.rbrack :: ·)
    else if c = ':' then (tokenize f cs).map (Tok.colon :: ·)
    else if c = ',' then (tokenize f cs).map (Tok.comma :: ·)
    else if c = '"' then
      match tokStr cs [] with
      | some sr => (tokenize f sr.2).map (Tok.str sr.1 :: ·)
      | none => none
    else if c = 'n' then
      match cs with
      | 'u' :: 'l' :: 'l' :: rest => (tokenize f rest).map (Tok.nullT :: ·)
      | _ => none
    else if c = 't' then
      match cs with
      | 'r' :: 'u' :: 'e' :: rest => (tokenize f rest).map (Tok.trueT :: ·)
      | _ => none
    else if c = 'f' then
      match cs with
      | 'a' :: 'l' :: 's' :: 'e' :: rest => (tokenize f rest).map (Tok.falseT :: ·)
      | _ => none
    else if c = '-' || c.isDigit then
      match numLex (c :: cs) with
      | some sr => (tokenize f sr.2).map (Tok.numT sr.1 :: ·)
      | none => none
    else none

/-! ## JSON parsing (a stack machine, so one structurally recursive function) -/

inductive PFrame where
  | arrF (items : List Json)
  | objF (fields : List (String × Json)) (key : String)
deriving Repr

/-- Parse a token stream into a single JSON value.  `pending = some v` means
a complete value `v` was just produced and the parser decides how the
enclosing container continues; `pending = none` means a value is expected. -/
def pv : Nat → List Tok → List PFrame → Option Json → Option Json
  | 0, _, _, _ => none
  | f + 1, ts, stack, some v =>
    match stack with
    | [] => match ts with
      | [] => some v
      | _ => none
    | .arrF items :: st =>
      match ts with
      | .comma :: rest => pv f rest (.arrF (v :: items) :: st) none
      | .rbrack :: rest => pv f rest st (some (.arr (v :: items).reverse))
      | _ => none
    | .objF fields k :: st =>
      match ts with
      | .comma :: .str k2 :: .colon :: rest =>
        pv f rest (.objF ((k, v) :: fields) k2 :: st) none
      | .rbrace :: rest => pv f rest st (some (.obj ((k, v) :: fields).reverse))
      | _ => none
  | f + 1, ts, stack, none =>
    match ts with
    | .str s :: rest => pv f rest stack (some (.str s))
    | .numT s :: rest => pv f rest stack (some (.num s))
    | .nullT :: rest => pv f rest stack (some .null)
    | .trueT :: rest => pv f rest stack (some (.bool true))
    | .falseT :: rest => pv f rest stack (some (.bool false))
    | .lbrack :: .rbrack :: rest => pv f rest stack (some (.arr []))
    | .lbrack :: rest => pv f rest (.arrF [] :: stack) none
    | .lbrace :: .rbrace :: rest => pv f rest stack (some (.obj []))
    | .lbrace :: .str k :: .colon :: rest => pv f rest (.objF [] k :: stack) none
    | _ => none

/-- The model of `JSON.parse`: `none` models a thrown `SyntaxError`. -/
def parseJson (s : String) : Option Json :=
  match tokenize (s.data.length + 1) s.data with
  | none => none
  | some ts => pv (ts.length + 1) ts [] none

/-! ## Base64 decoding (the model of `Buffer.from(s, "base64")`) -/

/-- Value of one base64 alphabet character; `none` for characters Node's
lenient decoder skips. -/
def b64Val (c : Char) : Option Nat :=
  if 'A' ≤ c && c ≤ 'Z' then some (c.toNat - 'A'.toNat)
  else if 'a' ≤ c && c ≤ 'z' then some (c.toNat - 'a'.toNat + 26)
  else if '0' ≤ c && c ≤ '9' then some (c.toNat - '0'.toNat + 52)
  else if c = '+' then some 62
  else if c = '/' then some 63
  else none

/-- Reassemble 6-bit groups into bytes, dropping the incomplete tail bits
exactly as Node does for unpadded input. -/
def bytesOfSextets : List Nat → List Nat
  | a :: b :: c :: d :: rest =>
    (a * 4 + b / 16) :: (b % 16 * 16 + c / 4) :: (c % 4 * 64 + d) :: bytesOfSextets rest
  | [a, b] => [a * 4 + b / 16]
  | [a, b, c] => [a * 4 + b / 16, b % 16 * 16 + c / 4]
  | _ => []

/-- Lenient base64 decode to text (exact for the ASCII payloads this tool
meets); it never fails, like `Buffer.from(·, "base64")`. -/
def b64decode (s : String) : String :=
  String.mk ((bytesOfSextets (s.data.filterMap b64Val)).map Char.ofNat)

/-! ## JWT payload decoding (`decodeJwtPayload` and the extractors) -/

/-- The model of `jwt.split(".")`. -/
def splitDotAux : List Char → List Char → List String
  | [], acc => [String.mk acc.reverse]
  | c :: cs, acc =>
    if c = '.' then String.mk acc.reverse :: splitDotAux cs []
    else splitDotAux cs (c :: acc)

def splitDot (s : String) : List String := splitDotAux s.data []

/-- The base64url-to-base64 normalisation `replaceAll("-","+").replaceAll("_","/")`. -/
def b64urlToB64 (s : String) : String :=
  String.mk (s.data.map (fun c => if c = '-' then '+' else if c = '_' then '/' else c))

/-- `decodeJwtPayload`: split on dots, require exactly three segments, decode
the middle one.  `Except.error` models the thrown (and later caught) error. -/
def decodeJwtPayload (jwt : String) : Except String Json :=
  match splitDot jwt with
  | [_, p1, _] =>
    match parseJson (b64decode (b64urlToB64 p1)) with
    | some j => Except.ok j
    | none => Except.error ("Unexpected token in JSON")
  | _ => Except.error ("Invalid JWT")

/-! ## Data model -/

structure Tokens where
  id_token : String
  access_token : String
  refresh_token : String
  account_id : String
deriving Repr, DecidableEq

structure CodexAuth where
  auth_mode : String
  OPENAI_API_KEY : Option String
  tokens : Tokens
  last_refresh : String
deriving Repr, DecidableEq

/-- `extractEmailFromAuth`: the `email` claim of the id token's payload, or
the sentinel `"unknown"` on any decode failure or nullish field. -/
def extractEmailFromAuth (auth : CodexAuth) : Json :=
  match decodeJwtPayload auth.tokens.id_token with
  | .error _ => .str "unknown"
  | .ok payload =>
    match jget payload "email" with
    | none => .str "unknown"
    | some .null => .str "unknown"
    | some v => v

/-- `extractPlanFromAuth`: the nested `chatgpt_plan_type` field, or the
sentinel `"unknown"` on any decode failure or nullish field. -/
def extractPlanFromAuth (auth : CodexAuth) : Json :=
  match decodeJwtPayload auth.tokens.id_token with
  | .error _ => .str "unknown"
  | .ok payload =>
    match jget payload "https://api.openai.com/auth" with
    | none => .str "unknown"
    | some authInfo =>
      match jget authInfo "chatgpt_plan_type" with
      | none => .str "unknown"
      | some .null => .str "unknown"
      | some v => v

structure AccountEntry where
  label : String
  email : Json
  account_id : String
  plan_type : Json
  auth : CodexAuth
  added_at : String
deriving Repr

structure Pool where
  active_index : Nat
  accounts : List AccountEntry
deriving Repr

/-- The observable filesystem: the contents of the pool file
(`~/.codex-rotate/accounts.json`) and of the live credential file
(`~/.codex/auth.json`); `none` means the file is absent. -/
structure FS where
  poolFile : Option Pool
  authFile : Option CodexAuth
deriving Repr

/-- `loadPool`: an absent pool file reads as the empty pool. -/
def loadPool (fs : FS) : Pool :=
  fs.poolFile.getD { active_index := 0, accounts := [] }

/-- `Array.prototype.findIndex` together with the subsequent (always
in-bounds) element access: the index and the element of the first match. -/
def findWithIdx (p : α → Bool) : List α → Option (Nat × α)
  | [] => none
  | a :: as =>
    if p a then some (0, a)
    else (findWithIdx p as).map (fun q => (q.1 + 1, q.2))

/-- Final state of a run started from `fs`: the new state on success, and
on a process exit the files the error records (for every error path except
the post-write report crash of `next`/`prev` these are the unchanged
starting files). -/
def resultFS (r : Except (String × FS) FS) (_fs : FS) : FS :=
  match r with
  | .ok fs' => fs'
  | .error ex => ex.2

def okB : Except (String × FS) FS → Bool
  | .ok _ => true
  | .error _ => false

/-! ## Command handlers -/

/-- `cmdAdd label` (with `now` the value of `new Date().toISOString()`). -/
def cmdAdd (label : String) (now : String) (fs : FS) : Except (String × FS) FS :=
  if label = "" then Except.error ("Usage: codex-rotate add <label>", fs)
  else
    match fs.authFile with
    | none => Except.error ("Codex auth file not found", fs)
    | some auth =>
      let pool := loadPool fs
      match findWithIdx (fun a => a.label == label) pool.accounts with
      | some ie =>
        let entry' : AccountEntry :=
          { ie.2 with
            auth := auth
            email := extractEmailFromAuth auth
            plan_type := extractPlanFromAuth auth
            account_id := auth.tokens.account_id }
        let pool' : Pool := { active_index := ie.1, accounts := pool.accounts.set ie.1 entry' }
        Except.ok { fs with poolFile := some pool' }
      | none =>
        match findWithIdx (fun a => a.auth.tokens.account_id == auth.tokens.account_id)
            pool.accounts with
        | some je =>
          let dup' : AccountEntry :=
            { je.2 with
              auth := auth
              email := extractEmailFromAuth auth
              plan_type := extractPlanFromAuth auth }
          let pool' : Pool :=
            { active_index := pool.active_index, accounts := pool.accounts.set je.1 dup' }
          Except.ok { fs with poolFile := some pool' }
        | none =>
          let entry : AccountEntry :=
            { label := label
              email := extractEmailFromAuth auth
              account_id := auth.tokens.account_id
              plan_type := extractPlanFromAuth auth
              auth := auth
              added_at := now }
          let accounts' := pool.accounts ++ [entry]
          let pool' : Pool := { active_index := accounts'.length - 1, accounts := accounts' }
          Except.ok { fs with poolFile := some pool' }

/-- The reconciliation step shared by `cmdNext` and `cmdPrev`: if the live
credential file exists and belongs to the same account as the active entry,
copy it back into the active entry (capturing token refreshes). -/
def reconcile (pool : Pool) (authFile : Option CodexAuth) : Pool :=
  match authFile with
  | none => pool
  | some currentAuth =>
    match pool.accounts[pool.active_index]? with
    | none => pool
    | some activeAccount =>
      if activeAccount.auth.tokens.account_id == currentAuth.tokens.account_id then
        { pool with accounts :=
            pool.accounts.set pool.active_index { activeAccount with auth := currentAuth } }
      else pool

def noAccountsMsg : String := "No accounts in pool. Run: codex-rotate add <label>"
def oneAccountMsg : String := "Only 1 account in pool. Add more with: codex-rotate add <label>"

/-- The wrap-around of `prev`: `(i - 1 + n) % n` in JavaScript number
arithmetic (the numerator is nonnegative, so `%` is the Euclidean mod). -/
def prevIdx (i n : Nat) : Nat :=
  (((i : Int) - 1 + (n : Int)) % (n : Int)).toNat

/-- `cmdNext`: reconcile, advance the active index by one (wrapping), write
the new active entry's credential to the live file, persist the pool, then
report the transition.  The report line reads `accounts[prevIndex]!` with
the old active index: when that index is out of range the program throws
after both files were already written, so the error carries the new
state. -/
def cmdNext (fs : FS) : Except (String × FS) FS :=
  let pool := loadPool fs
  if pool.accounts.length = 0 then Except.error (noAccountsMsg, fs)
  else if pool.accounts.length = 1 then Except.error (oneAccountMsg, fs)
  else
    let pool1 := reconcile pool fs.authFile
    let prevIndex := pool1.active_index
    let newIdx := (prevIndex + 1) % pool1.accounts.length
    match pool1.accounts[newIdx]? with
    | none => Except.error ("TypeError: undefined", fs)
    | some nextE =>
      let fs' : FS :=
        { poolFile := some { active_index := newIdx, accounts := pool1.accounts }
          authFile := some nextE.auth }
      match pool1.accounts[prevIndex]? with
      | none => Except.error ("TypeError: undefined", fs')
      | some _ => Except.ok fs'

/-- `cmdPrev`: like `cmdNext` but stepping backwards with wrap-around; its
report line has the same post-write crash on an out-of-range old index. -/
def cmdPrev (fs : FS) : Except (String × FS) FS :=
  let pool := loadPool fs
  if pool.accounts.length = 0 then Except.error (noAccountsMsg, fs)
  else if pool.accounts.length = 1 then Except.error (oneAccountMsg, fs)
  else
    let pool1 := reconcile pool fs.authFile
    let prevIndex := pool1.active_index
    let newIdx := prevIdx prevIndex pool1.accounts.length
    match pool1.accounts[newIdx]? with
    | none => Except.error ("TypeError: undefined", fs)
    | some nextE =>
      let fs' : FS :=
        { poolFile := some { active_index := newIdx, accounts := pool1.accounts }
          authFile := some nextE.auth }
      match pool1.accounts[prevIndex]? with
      | none => Except.error ("TypeError: undefined", fs')
      | some _ => Except.ok fs'

/-- The rows printed by `cmdList`, paired with their active marker. -/
def listRowsAux (i : Nat) (ai : Nat) : List AccountEntry → List (Bool × AccountEntry)
  | [] => []
  | a :: as => (i == ai, a) :: listRowsAux (i + 1) ai as

def listRows (pool : Pool) : List (Bool × AccountEntry) :=
  listRowsAux 0 pool.active_index pool.accounts

/-- The label of the entry the active index points at (what `list` marks
and `status` reports as the active slot). -/
def activeLabel (pool : Pool) : Option String :=
  (pool.accounts[pool.active_index]?).map (fun a => a.label)

/-- `cmdList` only reads: it prints the pool (or a warning when empty) and
leaves both files untouched. -/
def cmdList (fs : FS) : Except (String × FS) FS :=
  Except.ok fs

/-- `cmdStatus` only reads; with a non-empty pool it dereferences
`accounts[active_index]!`, which crashes when the index is out of range. -/
def cmdStatus (fs : FS) : Except (String × FS) FS :=
  let pool := loadPool fs
  if pool.accounts.length = 0 then Except.ok fs
  else
    match pool.accounts[pool.active_index]? with
    | none => Except.error ("TypeError: undefined", fs)
    | some _ => Except.ok fs

/-- `cmdRemove label`: splice out the labelled entry, clamp the active index
back to 0 when the pool empties or the index fell off the end. -/
def cmdRemove (label : String) (fs : FS) : Except (String × FS) FS :=
  if label = "" then Except.error ("Usage: codex-rotate remove <label>", fs)
  else
    let pool := loadPool fs
    match findWithIdx (fun a => a.label == label) pool.accounts with
    | none => Except.error ("Account \"" ++ label ++ "\" not found in pool.", fs)
    | some ie =>
      let accounts' := pool.accounts.eraseIdx ie.1
      let ai' :=
        if accounts'.length = 0 || decide (pool.active_index ≥ accounts'.length) then 0
        else pool.active_index
      let pool' : Pool := { active_index := ai', accounts := accounts' }
      Except.ok { fs with poolFile := some pool' }

/-- Sequential composition of handler runs (`Except.ok` threads the state). -/
def iterExc (f : FS → Except (String × FS) FS) : Nat → FS → Except (String × FS) FS
  | 0, fs => Except.ok fs
  | n + 1, fs => (f fs).bind (iterExc f n)

/-- The documented pool invariant: in-range active index on a non-empty
pool, index 0 on an empty one. -/
def poolInv (p : Pool) : Prop :=
  (p.accounts.length ≠ 0 → p.active_index < p.accounts.length) ∧
  (p.accounts.length = 0 → p.active_index = 0)

/-! ## Concrete fixtures used by witnesses and counterexamples -/

def tokA : Tokens :=
  { id_token := "x", access_token := "at", refresh_token := "rt", account_id := "acct-A" }

def authA : CodexAuth :=
  { auth_mode := "chatgpt", OPENAI_API_KEY := none, tokens := tokA, last_refresh := "t" }

def entryA : AccountEntry :=
  { label := "a", email := .str "unknown", account_id := "acct-A",
    plan_type := .str "unknown", auth := authA, added_at := "t0" }

def tokB : Tokens :=
  { id_token := "y", access_token := "at", refresh_token := "rt", account_id := "acct-B" }

def authB : CodexAuth :=
  { auth_mode := "chatgpt", OPENAI_API_KEY := none, tokens := tokB, last_refresh := "t" }

def entryB : AccountEntry :=
  { label := "b", email := .str "unknown", account_id := "acct-B",
    plan_type := .str "unknown", auth := authB, added_at := "t1" }

/-- A live credential whose account is not pooled under the active label. -/
def authX : CodexAuth :=
  { auth_mode := "chatgpt", OPENAI_API_KEY := none,
    tokens := { id_token := "z", access_token := "at", refresh_token := "rt",
                account_id := "acct-X" },
    last_refresh := "t" }

/-- A fresh credential for the same account as `entryA` (same embedded
account identifier, different token material). -/
def authA2 : CodexAuth :=
  { auth_mode := "chatgpt", OPENAI_API_KEY := none,
    tokens := { id_token := "x2", access_token := "at2", refresh_token := "rt2",
                account_id := "acct-A" },
    last_refresh := "t2" }

/-- Two-account pool with active index 0. -/
def poolW : Pool := { active_index := 0, accounts := [entryA, entryB] }

/-- Two-account pool, active index 0, live file holding the active
account's credential (the normal state). -/
def fsW : FS := { poolFile := some poolW, authFile := some authA }

/-- Two-account pool whose live credential belongs to an account that is
not the active entry. -/
def fsMismatch : FS := { poolFile := some poolW, authFile := some authX }

/-- One-account pool plus a live credential for that same account under a
label that is not yet in the pool. -/
def fsDup : FS :=
  { poolFile := some { active_index := 0, accounts := [entryA] }
    authFile := some authA2 }

/-- Two-account pool with the live credential file absent. -/
def fsNoAuth : FS := { poolFile := some poolW, authFile := none }

/-- A credential whose id token decodes to the empty JSON object (the
middle segment "e30" is base64 for the two-character object). -/
def authEmptyClaims : CodexAuth :=
  { auth_mode := "chatgpt", OPENAI_API_KEY := none,
    tokens := { id_token := "h.e30.s", access_token := "at", refresh_token := "rt",
                account_id := "acct-E" },
    last_refresh := "t" }

/-- A credential whose id token decodes to a payload holding the plan
container key with an empty object, so the nested plan-tier field is
absent (the middle segment is the base64url of that one-key document). -/
def authNestedEmpty : CodexAuth :=
  { auth_mode := "chatgpt", OPENAI_API_KEY := none,
    tokens := { id_token := "h.eyJodHRwczovL2FwaS5vcGVuYWkuY29tL2F1dGgiOnt9fQ.s",
                access_token := "at", refresh_token := "rt",
                account_id := "acct-N" },
    last_refresh := "t" }

/-! ## Helper lemmas -/

theorem findWithIdx_some {p : α → Bool} {l : List α} {q : Nat × α}
    (h : findWithIdx p l = some q) : l[q.1]? = some q.2 ∧ p q.2 = true := by
  induction l generalizing q with
  | nil => simp [findWithIdx] at h
  | cons a as ih =>
    rw [findWithIdx] at h
    by_cases hpa : p a
    · rw [if_pos hpa] at h
      simp only [Option.some.injEq] at h
      subst h
      exact ⟨by simp, hpa⟩
    · rw [if_neg hpa, Option.map_eq_some'] at h
      obtain ⟨q', hq', rfl⟩ := h
      obtain ⟨h1, h2⟩ := ih hq'
      exact ⟨by simpa using h1, h2⟩

theorem findWithIdx_none {p : α → Bool} {l : List α}
    (h : findWithIdx p l = none) : ∀ a ∈ l, p a = false := by
  induction l with
  | nil => simp
  | cons a as ih =>
    rw [findWithIdx] at h
    by_cases hpa : p a
    · rw [if_pos hpa] at h; cases h
    · rw [if_neg hpa, Option.map_eq_none'] at h
      intro b hb
      rcases List.mem_cons.mp hb with rfl | hb'
      · cases h' : p b
        · rfl
        · exact absurd h' hpa
      · exact ih h b hb'

theorem findWithIdx_ne_none {p : α → Bool} {l : List α} {a : α}
    (ha : a ∈ l) (hpa : p a = true) : findWithIdx p l ≠ none := by
  intro h
  have := findWithIdx_none h a ha
  rw [hpa] at this
  cases this

theorem set_getElem?_self {l : List α} {i : Nat} {a : α}
    (h : l[i]? = some a) : l.set i a = l := by
  induction l generalizing i with
  | nil => simp at h
  | cons x xs ih =>
    cases i with
    | zero =>
      simp only [List.getElem?_cons_zero, Option.some.injEq] at h
      subst h
      rfl
    | succ n =>
      simp only [List.getElem?_cons_succ] at h
      simp [ih h]

theorem reconcile_active_index (pool : Pool) (o : Option CodexAuth) :
    (reconcile pool o).active_index = pool.active_index := by
  unfold reconcile
  cases o with
  | none => rfl
  | some a =>
    cases h : pool.accounts[pool.active_index]? with
    | none => simp [h]
    | some e =>
      simp only [h]
      split <;> rfl

theorem reconcile_length (pool : Pool) (o : Option CodexAuth) :
    (reconcile pool o).accounts.length = pool.accounts.length := by
  unfold reconcile
  cases o with
  | none => rfl
  | some a =>
    cases h : pool.accounts[pool.active_index]? with
    | none => simp [h]
    | some e =>
      simp only [h]
      split <;> simp

theorem reconcile_none (pool : Pool) : reconcile pool none = pool := rfl

theorem reconcile_match (pool : Pool) (A : CodexAuth) {a : AccountEntry}
    (ha : pool.accounts[pool.active_index]? = some a)
    (hid : a.auth.tokens.account_id = A.tokens.account_id) :
    reconcile pool (some A) =
      { pool with accounts := pool.accounts.set pool.active_index { a with auth := A } } := by
  unfold reconcile
  rw [ha]
  simp [hid]

theorem reconcile_self (pool : Pool) {a : AccountEntry}
    (ha : pool.accounts[pool.active_index]? = some a) :
    reconcile pool (some a.auth) = pool := by
  rw [reconcile_match pool a.auth ha rfl]
  have h1 : ({ a with auth := a.auth } : AccountEntry) = a := rfl
  rw [h1, set_getElem?_self ha]

theorem cmdNext_ok (fs : FS) (h2 : 2 ≤ (loadPool fs).accounts.length)
    (hai : (loadPool fs).active_index < (loadPool fs).accounts.length) :
    ∃ nextE,
      (reconcile (loadPool fs) fs.authFile).accounts[((loadPool fs).active_index + 1) %
        (loadPool fs).accounts.length]? = some nextE ∧
      cmdNext fs = Except.ok
        { poolFile := some
            { active_index := ((loadPool fs).active_index + 1) % (loadPool fs).accounts.length
              accounts := (reconcile (loadPool fs) fs.authFile).accounts }
          authFile := some nextE.auth } := by
  have h0 : ¬ (loadPool fs).accounts.length = 0 := by omega
  have h1 : ¬ (loadPool fs).accounts.length = 1 := by omega
  have hIdx : ((loadPool fs).active_index + 1) % (loadPool fs).accounts.length <
      (reconcile (loadPool fs) fs.authFile).accounts.length := by
    rw [reconcile_length]
    exact Nat.mod_lt _ (by omega)
  have hOld : (loadPool fs).active_index <
      (reconcile (loadPool fs) fs.authFile).accounts.length := by
    rw [reconcile_length]
    exact hai
  obtain ⟨e, he⟩ : ∃ e, (reconcile (loadPool fs) fs.authFile).accounts[((loadPool fs).active_index + 1) %
      (loadPool fs).accounts.length]? = some e :=
    ⟨_, List.getElem?_eq_getElem hIdx⟩
  obtain ⟨o, ho⟩ : ∃ o, (reconcile (loadPool fs) fs.authFile).accounts[(loadPool fs).active_index]? =
      some o :=
    ⟨_, List.getElem?_eq_getElem hOld⟩
  refine ⟨e, he, ?_⟩
  unfold cmdNext
  simp only [if_neg h0, if_neg h1, reconcile_active_index, reconcile_length]
  rw [he, ho]

theorem prevIdx_eq (i n : Nat) (h : i < n) :
    prevIdx i n = if i = 0 then n - 1 else i - 1 := by
  unfold prevIdx
  have key : ((i : Int) - 1 + (n : Int)) % (n : Int) =
      ((if i = 0 then n - 1 else i - 1 : Nat) : Int) := by
    by_cases hi : i = 0
    · subst hi
      rw [if_pos rfl, Int.emod_eq_of_lt (by omega) (by omega)]
      omega
    · rw [if_neg hi]
      have h1 : (i : Int) - 1 + n = ((i : Int) - 1) + n * 1 := by ring
      rw [h1, Int.add_mul_emod_self_left, Int.emod_eq_of_lt (by omega) (by omega)]
      omega
  rw [key]
  split <;> simp

theorem prevIdx_lt (i n : Nat) (hn : 0 < n) : prevIdx i n < n := by
  unfold prevIdx
  have h1 : 0 ≤ ((i : Int) - 1 + n) % n := Int.emod_nonneg _ (by omega)
  have h2 : ((i : Int) - 1 + n) % n < n := Int.emod_lt_of_pos _ (by omega)
  omega

theorem next_prevIdx (i n : Nat) (h2 : 2 ≤ n) (h : i < n) :
    prevIdx ((i + 1) % n) n = i := by
  by_cases hi : i + 1 = n
  · have hz : (i + 1) % n = 0 := by rw [hi, Nat.mod_self]
    rw [hz, prevIdx_eq 0 n (by omega), if_pos rfl]
    omega
  · have hlt : i + 1 < n := by omega
    rw [Nat.mod_eq_of_lt hlt, prevIdx_eq (i + 1) n hlt, if_neg (by omega)]
    omega

theorem prevIdx_next (i n : Nat) (h2 : 2 ≤ n) (h : i < n) :
    (prevIdx i n + 1) % n = i := by
  rw [prevIdx_eq i n h]
  by_cases hi : i = 0
  · rw [if_pos hi]
    have : n - 1 + 1 = n := by omega
    rw [this, Nat.mod_self, hi]
  · rw [if_neg hi]
    have : i - 1 + 1 = i := by omega
    rw [this, Nat.mod_eq_of_lt h]

theorem prevIdx_as_nat_mod (i n : Nat) (h2 : 2 ≤ n) (h : i < n) :
    prevIdx i n = (i + (n - 1)) % n := by
  rw [prevIdx_eq i n h]
  by_cases hi : i = 0
  · subst hi
    rw [if_pos rfl, Nat.zero_add, Nat.mod_eq_of_lt (by omega)]
  · rw [if_neg hi]
    have h1 : i + (n - 1) = (i - 1) + n := by omega
    rw [h1, Nat.add_mod_right, Nat.mod_eq_of_lt (by omega)]

theorem prevIdx_int_mod (i n : Nat) (h2 : 2 ≤ n) (h : i < n) :
    (prevIdx i n : Int) = ((i : Int) - 1) % (n : Int) := by
  rw [prevIdx_eq i n h]
  by_cases hi : i = 0
  · subst hi
    rw [if_pos rfl]
    have h1 : ((0 : Nat) : Int) - 1 = (n - 1 : Int) + n * (-1) := by ring
    rw [h1, Int.add_mul_emod_self_left, Int.emod_eq_of_lt (by omega) (by omega)]
    omega
  · rw [if_neg hi, Int.emod_eq_of_lt (by omega) (by omega)]
    omega

theorem cmdPrev_ok (fs : FS) (h2 : 2 ≤ (loadPool fs).accounts.length)
    (hai : (loadPool fs).active_index < (loadPool fs).accounts.length) :
    ∃ nextE,
      (reconcile (loadPool fs) fs.authFile).accounts[prevIdx (loadPool fs).active_index
        (loadPool fs).accounts.length]? = some nextE ∧
      cmdPrev fs = Except.ok
        { poolFile := some
            { active_index := prevIdx (loadPool fs).active_index (loadPool fs).accounts.length
              accounts := (reconcile (loadPool fs) fs.authFile).accounts }
          authFile := some nextE.auth } := by
  have h0 : ¬ (loadPool fs).accounts.length = 0 := by omega
  have h1 : ¬ (loadPool fs).accounts.length = 1 := by omega
  have hIdx : prevIdx (loadPool fs).active_index (loadPool fs).accounts.length <
      (reconcile (loadPool fs) fs.authFile).accounts.length := by
    rw [reconcile_length]
    exact prevIdx_lt _ _ (by omega)
  have hOld : (loadPool fs).active_index <
      (reconcile (loadPool fs) fs.authFile).accounts.length := by
    rw [reconcile_length]
    exact hai
  obtain ⟨e, he⟩ : ∃ e, (reconcile (loadPool fs) fs.authFile).accounts[prevIdx (loadPool fs).active_index
      (loadPool fs).accounts.length]? = some e :=
    ⟨_, List.getElem?_eq_getElem hIdx⟩
  obtain ⟨o, ho⟩ : ∃ o, (reconcile (loadPool fs) fs.authFile).accounts[(loadPool fs).active_index]? =
      some o :=
    ⟨_, List.getElem?_eq_getElem hOld⟩
  refine ⟨e, he, ?_⟩
  unfold cmdPrev
  simp only [if_neg h0, if_neg h1, reconcile_active_index, reconcile_length]
  rw [he, ho]

theorem iterNext_ok (N : Nat) (h2 : 2 ≤ N) :
    ∀ (k : Nat) (fs : FS), (loadPool fs).accounts.length = N →
      (loadPool fs).active_index < N →
      ∃ fs', iterExc cmdNext k fs = Except.ok fs' ∧
        (loadPool fs').accounts.length = N ∧
        (loadPool fs').active_index = ((loadPool fs).active_index + k) % N := by
  intro k
  induction k with
  | zero =>
    intro fs hlen hai
    exact ⟨fs, rfl, hlen, by rw [Nat.add_zero, Nat.mod_eq_of_lt hai]⟩
  | succ k ih =>
    intro fs hlen hai
    obtain ⟨e, he, heq⟩ := cmdNext_ok fs (by omega) (by omega)
    set fs1 : FS :=
      { poolFile := some
          { active_index := ((loadPool fs).active_index + 1) % (loadPool fs).accounts.length
            accounts := (reconcile (loadPool fs) fs.authFile).accounts }
        authFile := some e.auth } with hfs1
    have hload : loadPool fs1 =
        { active_index := ((loadPool fs).active_index + 1) % (loadPool fs).accounts.length
          accounts := (reconcile (loadPool fs) fs.authFile).accounts } := rfl
    have hlen1 : (loadPool fs1).accounts.length = N := by
      rw [hload]
      simpa [reconcile_length] using hlen
    have hai1 : (loadPool fs1).active_index < N := by
      rw [hload]
      show ((loadPool fs).active_index + 1) % (loadPool fs).accounts.length < N
      rw [hlen]
      exact Nat.mod_lt _ (by omega)
    obtain ⟨fs', h1, hl', h3⟩ := ih fs1 hlen1 hai1
    refine ⟨fs', ?_, hl', ?_⟩
    · show (cmdNext fs).bind (iterExc cmdNext k) = Except.ok fs'
      rw [heq]
      exact h1
    · rw [h3, hload]
      show (((loadPool fs).active_index + 1) % (loadPool fs).accounts.length + k) % N =
        ((loadPool fs).active_index + (k + 1)) % N
      rw [hlen, Nat.mod_add_mod]
      congr 1
      omega

theorem iterPrev_ok (N : Nat) (h2 : 2 ≤ N) :
    ∀ (k : Nat) (fs : FS), (loadPool fs).accounts.length = N →
      (loadPool fs).active_index < N →
      ∃ fs', iterExc cmdPrev k fs = Except.ok fs' ∧
        (loadPool fs').accounts.length = N ∧
        (loadPool fs').active_index = ((loadPool fs).active_index + k * (N - 1)) % N := by
  intro k
  induction k with
  | zero =>
    intro fs hlen hai
    exact ⟨fs, rfl, hlen, by rw [Nat.zero_mul, Nat.add_zero, Nat.mod_eq_of_lt hai]⟩
  | succ k ih =>
    intro fs hlen hai
    obtain ⟨e, he, heq⟩ := cmdPrev_ok fs (by omega) (by omega)
    set fs1 : FS :=
      { poolFile := some
          { active_index := prevIdx (loadPool fs).active_index (loadPool fs).accounts.length
            accounts := (reconcile (loadPool fs) fs.authFile).accounts }
        authFile := some e.auth } with hfs1
    have hload : loadPool fs1 =
        { active_index := prevIdx (loadPool fs).active_index (loadPool fs).accounts.length
          accounts := (reconcile (loadPool fs) fs.authFile).accounts } := rfl
    have hlen1 : (loadPool fs1).accounts.length = N := by
      rw [hload]
      simpa [reconcile_length] using hlen
    have hai1 : (loadPool fs1).active_index < N := by
      rw [hload]
      show prevIdx (loadPool fs).active_index (loadPool fs).accounts.length < N
      rw [hlen]
      exact prevIdx_lt _ _ (by omega)
    obtain ⟨fs', h1, hl', h3⟩ := ih fs1 hlen1 hai1
    refine ⟨fs', ?_, hl', ?_⟩
    · show (cmdPrev fs).bind (iterExc cmdPrev k) = Except.ok fs'
      rw [heq]
      exact h1
    · rw [h3, hload]
      show (prevIdx (loadPool fs).active_index (loadPool fs).accounts.length + k * (N - 1)) % N =
        ((loadPool fs).active_index + (k + 1) * (N - 1)) % N
      rw [hlen, prevIdx_as_nat_mod _ _ h2 hai, Nat.mod_add_mod]
      congr 1
      ring_nf

/-! ## Claim theorems -/

/-- C8: for every pool with N ≥ 2 accounts and active index i < N, `next`
sets the active index to (i + 1) mod N and `prev` sets it to (i − 1) mod N,
wrapping in both directions: `prev` from 0 yields N − 1 and `next` from
N − 1 yields 0. -/
theorem rotation_steps_mod (fs : FS) (p : Pool)
    (hp : fs.poolFile = some p) (h2 : 2 ≤ p.accounts.length)
    (hai : p.active_index < p.accounts.length) :
    (∃ fs', cmdNext fs = Except.ok fs' ∧
      (loadPool fs').active_index = (p.active_index + 1) % p.accounts.length) ∧
    (∃ fs', cmdPrev fs = Except.ok fs' ∧
      ((loadPool fs').active_index : Int) =
        ((p.active_index : Int) - 1) % (p.accounts.length : Int)) ∧
    (p.active_index = 0 → ∃ fs', cmdPrev fs = Except.ok fs' ∧
      (loadPool fs').active_index = p.accounts.length - 1) ∧
    (p.active_index = p.accounts.length - 1 → ∃ fs', cmdNext fs = Except.ok fs' ∧
      (loadPool fs').active_index = 0) := by
  have hload : loadPool fs = p := by simp [loadPool, hp]
  obtain ⟨e, he, heq⟩ := cmdNext_ok fs (by rw [hload]; exact h2) (by rw [hload]; exact hai)
  obtain ⟨e', he', heq'⟩ := cmdPrev_ok fs (by rw [hload]; exact h2) (by rw [hload]; exact hai)
  rw [hload] at he heq he' heq'
  refine ⟨⟨_, heq, rfl⟩, ⟨_, heq', ?_⟩, ?_, ?_⟩
  · show (prevIdx p.active_index p.accounts.length : Int) = _
    exact prevIdx_int_mod _ _ h2 hai
  · intro h0
    refine ⟨_, heq', ?_⟩
    show prevIdx p.active_index p.accounts.length = p.accounts.length - 1
    rw [h0, prevIdx_eq 0 p.accounts.length (by omega), if_pos rfl]
  · intro hlast
    refine ⟨_, heq, ?_⟩
    show (p.active_index + 1) % p.accounts.length = 0
    rw [hlast]
    have hx : p.accounts.length - 1 + 1 = p.accounts.length := by omega
    rw [hx, Nat.mod_self]

/-- C8 witness: the statement instantiated at a concrete two-account pool. -/
theorem rotation_steps_mod_witness :
    (∃ fs', cmdNext fsW = Except.ok fs' ∧
      (loadPool fs').active_index = (poolW.active_index + 1) % poolW.accounts.length) ∧
    (∃ fs', cmdPrev fsW = Except.ok fs' ∧
      ((loadPool fs').active_index : Int) =
        ((poolW.active_index : Int) - 1) % (poolW.accounts.length : Int)) ∧
    (poolW.active_index = 0 → ∃ fs', cmdPrev fsW = Except.ok fs' ∧
      (loadPool fs').active_index = poolW.accounts.length - 1) ∧
    (poolW.active_index = poolW.accounts.length - 1 → ∃ fs', cmdNext fsW = Except.ok fs' ∧
      (loadPool fs').active_index = 0) :=
  rotation_steps_mod fsW poolW rfl (by decide) (by decide)

/-- C3: with N = pool size ≥ 2 and a valid active index, N consecutive
`next` calls (and likewise N consecutive `prev` calls) return the active
index to its original value. -/
theorem rotation_cycle (fs : FS) (p : Pool)
    (hp : fs.poolFile = some p) (h2 : 2 ≤ p.accounts.length)
    (hai : p.active_index < p.accounts.length) :
    (∃ fs', iterExc cmdNext p.accounts.length fs = Except.ok fs' ∧
      (loadPool fs').active_index = p.active_index) ∧
    (∃ fs', iterExc cmdPrev p.accounts.length fs = Except.ok fs' ∧
      (loadPool fs').active_index = p.active_index) := by
  have hload : loadPool fs = p := by simp [loadPool, hp]
  constructor
  · obtain ⟨fs', h1, hl', h3⟩ := iterNext_ok p.accounts.length h2 p.accounts.length fs
      (by rw [hload]) (by rw [hload]; exact hai)
    refine ⟨fs', h1, ?_⟩
    rw [h3, hload, Nat.add_mod_right, Nat.mod_eq_of_lt hai]
  · obtain ⟨fs', h1, hl', h3⟩ := iterPrev_ok p.accounts.length h2 p.accounts.length fs
      (by rw [hload]) (by rw [hload]; exact hai)
    refine ⟨fs', h1, ?_⟩
    rw [h3, hload, Nat.mul_comm, Nat.add_mul_mod_self_right, Nat.mod_eq_of_lt hai]

/-- C3 witness: the statement instantiated at a concrete two-account pool. -/
theorem rotation_cycle_witness :
    (∃ fs', iterExc cmdNext poolW.accounts.length fsW = Except.ok fs' ∧
      (loadPool fs').active_index = poolW.active_index) ∧
    (∃ fs', iterExc cmdPrev poolW.accounts.length fsW = Except.ok fs' ∧
      (loadPool fs').active_index = poolW.active_index) :=
  rotation_cycle fsW poolW rfl (by decide) (by decide)

/-- C10: with at least two accounts, an in-range active index and the live
credential file absent, `next` and `prev` still succeed: the reconciliation
step is skipped, the active index advances, and the live file is created
with the new active entry's stored credential.  (The in-range bound
matters: with an out-of-range index the program writes both files and then
dies on its report line.) -/
theorem rotate_without_live_file (fs : FS) (p : Pool)
    (hp : fs.poolFile = some p) (hA : fs.authFile = none)
    (h2 : 2 ≤ p.accounts.length)
    (hai : p.active_index < p.accounts.length) :
    (∃ fs', cmdNext fs = Except.ok fs' ∧
      (loadPool fs').active_index = (p.active_index + 1) % p.accounts.length ∧
      fs'.authFile = (p.accounts[(p.active_index + 1) % p.accounts.length]?).map
        (fun a => a.auth)) ∧
    (∃ fs', cmdPrev fs = Except.ok fs' ∧
      (loadPool fs').active_index = prevIdx p.active_index p.accounts.length ∧
      fs'.authFile = (p.accounts[prevIdx p.active_index p.accounts.length]?).map
        (fun a => a.auth)) := by
  have hload : loadPool fs = p := by simp [loadPool, hp]
  constructor
  · obtain ⟨e, he, heq⟩ := cmdNext_ok fs (by rw [hload]; exact h2) (by rw [hload]; exact hai)
    rw [hload, hA, reconcile_none] at he heq
    exact ⟨_, heq, rfl, by simp [he]⟩
  · obtain ⟨e, he, heq⟩ := cmdPrev_ok fs (by rw [hload]; exact h2) (by rw [hload]; exact hai)
    rw [hload, hA, reconcile_none] at he heq
    exact ⟨_, heq, rfl, by simp [he]⟩

/-- C10 witness: the statement instantiated at a concrete two-account pool
with no live credential file. -/
theorem rotate_without_live_file_witness :
    (∃ fs', cmdNext fsNoAuth = Except.ok fs' ∧
      (loadPool fs').active_index = (poolW.active_index + 1) % poolW.accounts.length ∧
      fs'.authFile = (poolW.accounts[(poolW.active_index + 1) % poolW.accounts.length]?).map
        (fun a => a.auth)) ∧
    (∃ fs', cmdPrev fsNoAuth = Except.ok fs' ∧
      (loadPool fs').active_index = prevIdx poolW.active_index poolW.accounts.length ∧
      fs'.authFile = (poolW.accounts[prevIdx poolW.active_index poolW.accounts.length]?).map
        (fun a => a.auth)) :=
  rotate_without_live_file fsNoAuth poolW rfl rfl (by decide) (by decide)

/-! ## Invariant preservation lemmas -/

theorem resultFS_inv (r : Except (String × FS) FS) (fs : FS)
    (hok : ∀ fs', r = Except.ok fs' → poolInv (loadPool fs'))
    (herr : ∀ ex, r = Except.error ex → poolInv (loadPool ex.2)) :
    poolInv (loadPool (resultFS r fs)) := by
  cases r with
  | ok fs' => exact hok fs' rfl
  | error ex => exact herr ex rfl

theorem cmdNext_inv (fs fs' : FS) (h : cmdNext fs = Except.ok fs') :
    poolInv (loadPool fs') := by
  by_cases h0 : (loadPool fs).accounts.length = 0
  · simp [cmdNext, h0] at h
  · by_cases h1 : (loadPool fs).accounts.length = 1
    · simp [cmdNext, h0, h1] at h
    · simp only [cmdNext, if_neg h0, if_neg h1, reconcile_active_index,
        reconcile_length] at h
      cases hm1 : (reconcile (loadPool fs) fs.authFile).accounts[((loadPool fs).active_index + 1) % (loadPool fs).accounts.length]? with
      | none =>
        simp only [hm1] at h
        exact Except.noConfusion h
      | some e =>
        simp only [hm1] at h
        cases hm2 : (reconcile (loadPool fs) fs.authFile).accounts[(loadPool fs).active_index]? with
        | none =>
          simp only [hm2] at h
          exact Except.noConfusion h
        | some o =>
          simp only [hm2] at h
          injection h with h
          subst h
          constructor
          · intro _
            show ((loadPool fs).active_index + 1) % (loadPool fs).accounts.length <
              (reconcile (loadPool fs) fs.authFile).accounts.length
            rw [reconcile_length]
            exact Nat.mod_lt _ (by omega)
          · intro hz
            have hz' : (reconcile (loadPool fs) fs.authFile).accounts.length = 0 := hz
            rw [reconcile_length] at hz'
            omega

theorem cmdPrev_inv (fs fs' : FS) (h : cmdPrev fs = Except.ok fs') :
    poolInv (loadPool fs') := by
  by_cases h0 : (loadPool fs).accounts.length = 0
  · simp [cmdPrev, h0] at h
  · by_cases h1 : (loadPool fs).accounts.length = 1
    · simp [cmdPrev, h0, h1] at h
    · simp only [cmdPrev, if_neg h0, if_neg h1, reconcile_active_index,
        reconcile_length] at h
      cases hm1 : (reconcile (loadPool fs) fs.authFile).accounts[prevIdx (loadPool fs).active_index (loadPool fs).accounts.length]? with
      | none =>
        simp only [hm1] at h
        exact Except.noConfusion h
      | some e =>
        simp only [hm1] at h
        cases hm2 : (reconcile (loadPool fs) fs.authFile).accounts[(loadPool fs).active_index]? with
        | none =>
          simp only [hm2] at h
          exact Except.noConfusion h
        | some o =>
          simp only [hm2] at h
          injection h with h
          subst h
          constructor
          · intro _
            show prevIdx (loadPool fs).active_index (loadPool fs).accounts.length <
              (reconcile (loadPool fs) fs.authFile).accounts.length
            rw [reconcile_length]
            exact prevIdx_lt _ _ (by omega)
          · intro hz
            have hz' : (reconcile (loadPool fs) fs.authFile).accounts.length = 0 := hz
            rw [reconcile_length] at hz'
            omega

theorem lt_length_of_getElem? {l : List α} {i : Nat} {a : α} (h : l[i]? = some a) :
    i < l.length := by
  by_contra hc
  have hn : l[i]? = none := List.getElem?_eq_none (by omega)
  rw [hn] at h
  cases h

theorem mem_of_getElem?' {l : List α} {i : Nat} {a : α} (h : l[i]? = some a) : a ∈ l := by
  induction l generalizing i with
  | nil => simp at h
  | cons x xs ih =>
    cases i with
    | zero =>
      simp only [List.getElem?_cons_zero, Option.some.injEq] at h
      subst h
      exact List.mem_cons_self _ _
    | succ n =>
      simp only [List.getElem?_cons_succ] at h
      exact List.mem_cons_of_mem _ (ih h)

theorem cmdAdd_inv (label now : String) (fs fs' : FS)
    (hfs : poolInv (loadPool fs)) (h : cmdAdd label now fs = Except.ok fs') :
    poolInv (loadPool fs') := by
  by_cases hl : label = ""
  · simp [cmdAdd, hl] at h
  · cases hA : fs.authFile with
    | none => simp [cmdAdd, hl, hA] at h
    | some A =>
      simp only [cmdAdd, if_neg hl, hA] at h
      cases h1 : findWithIdx (fun a => a.label == label) (loadPool fs).accounts with
      | some ie =>
        simp only [h1] at h
        injection h with h
        subst h
        obtain ⟨hget, hp⟩ := findWithIdx_some h1
        have hlt : ie.1 < (loadPool fs).accounts.length := lt_length_of_getElem? hget
        constructor
        · intro _
          show ie.1 < ((loadPool fs).accounts.set ie.1 _).length
          simpa using hlt
        · intro hz
          have h3 : ((loadPool fs).accounts.set ie.1 _).length = 0 := hz
          rw [List.length_set] at h3
          omega
      | none =>
        simp only [h1] at h
        cases h2 : findWithIdx
            (fun a => a.auth.tokens.account_id == A.tokens.account_id)
            (loadPool fs).accounts with
        | some je =>
          simp only [h2] at h
          injection h with h
          subst h
          obtain ⟨hget, hp⟩ := findWithIdx_some h2
          have hlt : je.1 < (loadPool fs).accounts.length := lt_length_of_getElem? hget
          constructor
          · intro _
            show (loadPool fs).active_index < ((loadPool fs).accounts.set je.1 _).length
            rw [List.length_set]
            exact hfs.1 (by omega)
          · intro hz
            have h3 : ((loadPool fs).accounts.set je.1 _).length = 0 := hz
            rw [List.length_set] at h3
            omega
        | none =>
          simp only [h2] at h
          injection h with h
          subst h
          constructor
          · intro _
            show ((loadPool fs).accounts ++ [_]).length - 1 <
              ((loadPool fs).accounts ++ [_]).length
            simp
          · intro hz
            have h3 : ((loadPool fs).accounts ++ [_]).length = 0 := hz
            simp at h3

theorem cmdRemove_inv (label : String) (fs fs' : FS)
    (h : cmdRemove label fs = Except.ok fs') : poolInv (loadPool fs') := by
  by_cases hl : label = ""
  · simp [cmdRemove, hl] at h
  · simp only [cmdRemove, if_neg hl] at h
    cases h1 : findWithIdx (fun a => a.label == label) (loadPool fs).accounts with
    | none =>
      simp only [h1] at h
      exact Except.noConfusion h
    | some ie =>
      simp only [h1] at h
      injection h with h
      subst h
      constructor
      · intro hne
        show (if _ then 0 else (loadPool fs).active_index) <
          ((loadPool fs).accounts.eraseIdx ie.1).length
        have hne' : ((loadPool fs).accounts.eraseIdx ie.1).length ≠ 0 := hne
        split
        · omega
        · rename_i hcond
          simp only [Bool.or_eq_true, decide_eq_true_eq, not_or] at hcond
          omega
      · intro hz
        show (if _ then 0 else (loadPool fs).active_index) = 0
        have hz' : ((loadPool fs).accounts.eraseIdx ie.1).length = 0 := hz
        split
        · rfl
        · rename_i hcond
          simp only [Bool.or_eq_true, decide_eq_true_eq, not_or] at hcond
          omega

theorem cmdList_inv (fs fs' : FS) (hfs : poolInv (loadPool fs))
    (h : cmdList fs = Except.ok fs') : poolInv (loadPool fs') := by
  injection h with h
  subst h
  exact hfs

theorem cmdStatus_inv (fs fs' : FS) (hfs : poolInv (loadPool fs))
    (h : cmdStatus fs = Except.ok fs') : poolInv (loadPool fs') := by
  by_cases h0 : (loadPool fs).accounts.length = 0
  · simp only [cmdStatus, if_pos h0] at h
    injection h with h
    subst h
    exact hfs
  · simp only [cmdStatus, if_neg h0] at h
    cases h1 : (loadPool fs).accounts[(loadPool fs).active_index]? with
    | none =>
      simp only [h1] at h
      exact Except.noConfusion h
    | some e =>
      simp only [h1] at h
      injection h with h
      subst h
      exact hfs

/-! ## Exit-state lemmas: which files an error leaves behind -/

theorem cmdAdd_exit (label now : String) (fs : FS) :
    ∀ ex, cmdAdd label now fs = Except.error ex → ex.2 = fs := by
  intro ex h
  by_cases hl : label = ""
  · simp only [cmdAdd, if_pos hl] at h
    injection h with h
    subst h
    rfl
  · cases hA : fs.authFile with
    | none =>
      simp only [cmdAdd, if_neg hl, hA] at h
      injection h with h
      subst h
      rfl
    | some A =>
      simp only [cmdAdd, if_neg hl, hA] at h
      cases h1 : findWithIdx (fun a => a.label == label) (loadPool fs).accounts with
      | some ie =>
        simp only [h1] at h
        exact Except.noConfusion h
      | none =>
        simp only [h1] at h
        cases h2 : findWithIdx
            (fun a => a.auth.tokens.account_id == A.tokens.account_id)
            (loadPool fs).accounts with
        | some je =>
          simp only [h2] at h
          exact Except.noConfusion h
        | none =>
          simp only [h2] at h
          exact Except.noConfusion h

theorem cmdRemove_exit (label : String) (fs : FS) :
    ∀ ex, cmdRemove label fs = Except.error ex → ex.2 = fs := by
  intro ex h
  by_cases hl : label = ""
  · simp only [cmdRemove, if_pos hl] at h
    injection h with h
    subst h
    rfl
  · simp only [cmdRemove, if_neg hl] at h
    cases h1 : findWithIdx (fun a => a.label == label) (loadPool fs).accounts with
    | none =>
      simp only [h1] at h
      injection h with h
      subst h
      rfl
    | some ie =>
      simp only [h1] at h
      exact Except.noConfusion h

theorem cmdStatus_exit (fs : FS) :
    ∀ ex, cmdStatus fs = Except.error ex → ex.2 = fs := by
  intro ex h
  by_cases h0 : (loadPool fs).accounts.length = 0
  · simp only [cmdStatus, if_pos h0] at h
    exact Except.noConfusion h
  · simp only [cmdStatus, if_neg h0] at h
    cases h1 : (loadPool fs).accounts[(loadPool fs).active_index]? with
    | none =>
      simp only [h1] at h
      injection h with h
      subst h
      rfl
    | some e =>
      simp only [h1] at h
      exact Except.noConfusion h

theorem cmdNext_exit (fs : FS)
    (hai : (loadPool fs).active_index < (loadPool fs).accounts.length) :
    ∀ ex, cmdNext fs = Except.error ex → ex.2 = fs := by
  intro ex h
  by_cases h0 : (loadPool fs).accounts.length = 0
  · simp only [cmdNext, if_pos h0] at h
    injection h with h
    subst h
    rfl
  · by_cases h1 : (loadPool fs).accounts.length = 1
    · simp only [cmdNext, if_neg h0, if_pos h1] at h
      injection h with h
      subst h
      rfl
    · simp only [cmdNext, if_neg h0, if_neg h1, reconcile_active_index,
        reconcile_length] at h
      cases hm1 : (reconcile (loadPool fs) fs.authFile).accounts[((loadPool fs).active_index + 1) % (loadPool fs).accounts.length]? with
      | none =>
        simp only [hm1] at h
        injection h with h
        subst h
        rfl
      | some e =>
        simp only [hm1] at h
        obtain ⟨o, ho⟩ : ∃ o, (reconcile (loadPool fs) fs.authFile).accounts[(loadPool fs).active_index]? = some o :=
          ⟨_, List.getElem?_eq_getElem (by rw [reconcile_length]; exact hai)⟩
        simp only [ho] at h
        exact Except.noConfusion h

theorem cmdPrev_exit (fs : FS)
    (hai : (loadPool fs).active_index < (loadPool fs).accounts.length) :
    ∀ ex, cmdPrev fs = Except.error ex → ex.2 = fs := by
  intro ex h
  by_cases h0 : (loadPool fs).accounts.length = 0
  · simp only [cmdPrev, if_pos h0] at h
    injection h with h
    subst h
    rfl
  · by_cases h1 : (loadPool fs).accounts.length = 1
    · simp only [cmdPrev, if_neg h0, if_pos h1] at h
      injection h with h
      subst h
      rfl
    · simp only [cmdPrev, if_neg h0, if_neg h1, reconcile_active_index,
        reconcile_length] at h
      cases hm1 : (reconcile (loadPool fs) fs.authFile).accounts[prevIdx (loadPool fs).active_index (loadPool fs).accounts.length]? with
      | none =>
        simp only [hm1] at h
        injection h with h
        subst h
        rfl
      | some e =>
        simp only [hm1] at h
        obtain ⟨o, ho⟩ : ∃ o, (reconcile (loadPool fs) fs.authFile).accounts[(loadPool fs).active_index]? = some o :=
          ⟨_, List.getElem?_eq_getElem (by rw [reconcile_length]; exact hai)⟩
        simp only [ho] at h
        exact Except.noConfusion h

/-- C1: starting from any state whose pool is non-empty with an in-range
active index, every handler (add, next, prev, list, status, remove) leaves
the on-disk pool satisfying the invariant: in-range active index when
non-empty, active index 0 when empty.  (On `die` the files are untouched,
so the invariant also holds trivially.) -/
theorem handlers_preserve_invariant (fs : FS) (label now : String)
    (hne : (loadPool fs).accounts.length ≠ 0)
    (hai : (loadPool fs).active_index < (loadPool fs).accounts.length) :
    poolInv (loadPool (resultFS (cmdAdd label now fs) fs)) ∧
    poolInv (loadPool (resultFS (cmdNext fs) fs)) ∧
    poolInv (loadPool (resultFS (cmdPrev fs) fs)) ∧
    poolInv (loadPool (resultFS (cmdList fs) fs)) ∧
    poolInv (loadPool (resultFS (cmdStatus fs) fs)) ∧
    poolInv (loadPool (resultFS (cmdRemove label fs) fs)) := by
  have hfs : poolInv (loadPool fs) := ⟨fun _ => hai, fun h => absurd h hne⟩
  exact ⟨resultFS_inv _ fs (fun fs' h => cmdAdd_inv label now fs fs' hfs h)
           (fun ex h => by rw [cmdAdd_exit label now fs ex h]; exact hfs),
         resultFS_inv _ fs (fun fs' h => cmdNext_inv fs fs' h)
           (fun ex h => by rw [cmdNext_exit fs hai ex h]; exact hfs),
         resultFS_inv _ fs (fun fs' h => cmdPrev_inv fs fs' h)
           (fun ex h => by rw [cmdPrev_exit fs hai ex h]; exact hfs),
         resultFS_inv _ fs (fun fs' h => cmdList_inv fs fs' hfs h)
           (fun ex h => by simp [cmdList] at h),
         resultFS_inv _ fs (fun fs' h => cmdStatus_inv fs fs' hfs h)
           (fun ex h => by rw [cmdStatus_exit fs ex h]; exact hfs),
         resultFS_inv _ fs (fun fs' h => cmdRemove_inv label fs fs' h)
           (fun ex h => by rw [cmdRemove_exit label fs ex h]; exact hfs)⟩

/-- C1 witness: the statement instantiated at a concrete two-account pool. -/
theorem handlers_preserve_invariant_witness :
    poolInv (loadPool (resultFS (cmdAdd "c" "t2" fsW) fsW)) ∧
    poolInv (loadPool (resultFS (cmdNext fsW) fsW)) ∧
    poolInv (loadPool (resultFS (cmdPrev fsW) fsW)) ∧
    poolInv (loadPool (resultFS (cmdList fsW) fsW)) ∧
    poolInv (loadPool (resultFS (cmdStatus fsW) fsW)) ∧
    poolInv (loadPool (resultFS (cmdRemove "c" fsW) fsW)) :=
  handlers_preserve_invariant fsW "c" "t2" (by decide) (by decide)

/-! ## Live-file frame lemmas -/

theorem resultFS_authFile (r : Except (String × FS) FS) (fs : FS)
    (hok : ∀ fs', r = Except.ok fs' → fs'.authFile = fs.authFile)
    (herr : ∀ ex, r = Except.error ex → ex.2.authFile = fs.authFile) :
    (resultFS r fs).authFile = fs.authFile := by
  cases r with
  | ok fs' => exact hok fs' rfl
  | error ex => exact herr ex rfl

theorem cmdAdd_authFile (label now : String) (fs fs' : FS)
    (h : cmdAdd label now fs = Except.ok fs') : fs'.authFile = fs.authFile := by
  by_cases hl : label = ""
  · simp [cmdAdd, hl] at h
  · cases hA : fs.authFile with
    | none => simp [cmdAdd, hl, hA] at h
    | some A =>
      simp only [cmdAdd, if_neg hl, hA] at h
      cases h1 : findWithIdx (fun a => a.label == label) (loadPool fs).accounts with
      | some ie =>
        simp only [h1] at h
        injection h with h
        subst h
        rfl
      | none =>
        simp only [h1] at h
        cases h2 : findWithIdx
            (fun a => a.auth.tokens.account_id == A.tokens.account_id)
            (loadPool fs).accounts with
        | some je =>
          simp only [h2] at h
          injection h with h
          subst h
          rfl
        | none =>
          simp only [h2] at h
          injection h with h
          subst h
          rfl

theorem cmdRemove_authFile (label : String) (fs fs' : FS)
    (h : cmdRemove label fs = Except.ok fs') : fs'.authFile = fs.authFile := by
  by_cases hl : label = ""
  · simp [cmdRemove, hl] at h
  · simp only [cmdRemove, if_neg hl] at h
    cases h1 : findWithIdx (fun a => a.label == label) (loadPool fs).accounts with
    | none =>
      simp only [h1] at h
      exact Except.noConfusion h
    | some ie =>
      simp only [h1] at h
      injection h with h
      subst h
      rfl

theorem cmdStatus_authFile (fs fs' : FS)
    (h : cmdStatus fs = Except.ok fs') : fs'.authFile = fs.authFile := by
  by_cases h0 : (loadPool fs).accounts.length = 0
  · simp only [cmdStatus, if_pos h0] at h
    injection h with h
    subst h
    rfl
  · simp only [cmdStatus, if_neg h0] at h
    cases h1 : (loadPool fs).accounts[(loadPool fs).active_index]? with
    | none =>
      simp only [h1] at h
      exact Except.noConfusion h
    | some e =>
      simp only [h1] at h
      injection h with h
      subst h
      rfl

/-- C9: `add`, `list`, `status` and `remove` never change the live
credential file's contents (in particular `remove` leaves it alone even
when it removes the active entry); only `next`/`prev` write it. -/
theorem non_rotation_preserves_live_file (fs : FS) (label now : String) :
    (resultFS (cmdAdd label now fs) fs).authFile = fs.authFile ∧
    (resultFS (cmdList fs) fs).authFile = fs.authFile ∧
    (resultFS (cmdStatus fs) fs).authFile = fs.authFile ∧
    (resultFS (cmdRemove label fs) fs).authFile = fs.authFile :=
  ⟨resultFS_authFile _ _ (fun fs' h => cmdAdd_authFile label now fs fs' h)
     (fun ex h => by rw [cmdAdd_exit label now fs ex h]),
   resultFS_authFile _ _ (fun fs' h => by injection h with h; subst h; rfl)
     (fun ex h => by simp [cmdList] at h),
   resultFS_authFile _ _ (fun fs' h => cmdStatus_authFile fs fs' h)
     (fun ex h => by rw [cmdStatus_exit fs ex h]),
   resultFS_authFile _ _ (fun fs' h => cmdRemove_authFile label fs fs' h)
     (fun ex h => by rw [cmdRemove_exit label fs ex h])⟩

/-- C6: removing a label that no pool entry carries fails with the
not-found error, and the run leaves the filesystem (in particular the pool
file) exactly as it was. -/
theorem remove_notFound (fs : FS) (label : String) (hl : label ≠ "")
    (h : ∀ a ∈ (loadPool fs).accounts, a.label ≠ label) :
    cmdRemove label fs =
      Except.error ("Account \"" ++ label ++ "\" not found in pool.", fs) ∧
    resultFS (cmdRemove label fs) fs = fs := by
  have hfind : findWithIdx (fun a => a.label == label) (loadPool fs).accounts = none := by
    cases hf : findWithIdx (fun a => a.label == label) (loadPool fs).accounts with
    | none => rfl
    | some q =>
      obtain ⟨hget, hp⟩ := findWithIdx_some hf
      have hmem : q.2 ∈ (loadPool fs).accounts := mem_of_getElem?' hget
      exact absurd (by simpa using hp) (h q.2 hmem)
  have herr : cmdRemove label fs =
      Except.error ("Account \"" ++ label ++ "\" not found in pool.", fs) := by
    simp only [cmdRemove, if_neg hl, hfind]
  exact ⟨herr, by rw [herr]; rfl⟩

/-- C6 witness: removing the absent label from a concrete two-account
pool. -/
theorem remove_notFound_witness :
    cmdRemove "z" fsW =
      Except.error ("Account \"" ++ "z" ++ "\" not found in pool.", fsW) ∧
    resultFS (cmdRemove "z" fsW) fsW = fsW :=
  remove_notFound fsW "z" (by decide) (by decide)

/-! ## Token inspector claims -/

theorem decodeJwt_error_of_len (jwt : String)
    (h : (splitDot jwt).length ≠ 3) :
    decodeJwtPayload jwt = Except.error ("Invalid JWT") := by
  unfold decodeJwtPayload
  cases hs : splitDot jwt with
  | nil => rfl
  | cons a l1 =>
    cases l1 with
    | nil => rfl
    | cons b l2 =>
      cases l2 with
      | nil => rfl
      | cons c l3 =>
        cases l3 with
        | nil => exact absurd (by rw [hs]; rfl) h
        | cons d l4 => rfl

/-- C7: whenever the identity token fails to decode — it does not split
into exactly three dot-separated segments, or the middle segment's payload
does not parse as JSON, or the looked-up field is absent (the `email`
claim for the email extractor; for the plan extractor either the whole
plan container or the nested `chatgpt_plan_type` field inside a present
container) — the extractors return the sentinel string "unknown"; being
total functions they never propagate an error. -/
theorem extract_unknown_on_decode_failure (auth : CodexAuth) :
    ((splitDot auth.tokens.id_token).length ≠ 3 →
      extractEmailFromAuth auth = Json.str "unknown" ∧
      extractPlanFromAuth auth = Json.str "unknown") ∧
    (∀ e, decodeJwtPayload auth.tokens.id_token = Except.error e →
      extractEmailFromAuth auth = Json.str "unknown" ∧
      extractPlanFromAuth auth = Json.str "unknown") ∧
    (∀ payload, decodeJwtPayload auth.tokens.id_token = Except.ok payload →
      (jget payload "email" = none →
        extractEmailFromAuth auth = Json.str "unknown") ∧
      (jget payload "https://api.openai.com/auth" = none →
        extractPlanFromAuth auth = Json.str "unknown") ∧
      (∀ authInfo, jget payload "https://api.openai.com/auth" = some authInfo →
        jget authInfo "chatgpt_plan_type" = none →
        extractPlanFromAuth auth = Json.str "unknown")) := by
  have herr : ∀ e, decodeJwtPayload auth.tokens.id_token = Except.error e →
      extractEmailFromAuth auth = Json.str "unknown" ∧
      extractPlanFromAuth auth = Json.str "unknown" := by
    intro e he
    constructor
    · simp only [extractEmailFromAuth, he]
    · simp only [extractPlanFromAuth, he]
  refine ⟨?_, herr, ?_⟩
  · intro hlen
    exact herr _ (decodeJwt_error_of_len _ hlen)
  · intro payload hok
    refine ⟨?_, ?_, ?_⟩
    · intro hnone
      simp only [extractEmailFromAuth, hok, hnone]
    · intro hnone
      simp only [extractPlanFromAuth, hok, hnone]
    · intro authInfo houter hinner
      simp only [extractPlanFromAuth, hok, houter, hinner]

/-- C7 witness: a one-segment token ("x"), a token whose payload is the
empty JSON object, and a token whose payload holds the plan container
without the nested `chatgpt_plan_type` field all yield the sentinel. -/
theorem extract_unknown_on_decode_failure_witness :
    (extractEmailFromAuth authA = Json.str "unknown" ∧
     extractPlanFromAuth authA = Json.str "unknown") ∧
    (extractEmailFromAuth authEmptyClaims = Json.str "unknown" ∧
     extractPlanFromAuth authEmptyClaims = Json.str "unknown") ∧
    extractPlanFromAuth authNestedEmpty = Json.str "unknown" := by
  refine ⟨?_, ⟨?_, ?_⟩, ?_⟩
  · exact (extract_unknown_on_decode_failure authA).1 (by decide)
  · exact ((extract_unknown_on_decode_failure authEmptyClaims).2.2
      (Json.obj []) rfl).1 rfl
  · exact ((extract_unknown_on_decode_failure authEmptyClaims).2.2
      (Json.obj []) rfl).2.1 rfl
  · exact (((extract_unknown_on_decode_failure authNestedEmpty).2.2
      (Json.obj [("https://api.openai.com/auth", Json.obj [])]) rfl).2.2
      (Json.obj []) rfl) rfl

/-! ## Add claims -/

theorem cmdAdd_cases (label now : String) (fs : FS) (A : CodexAuth)
    (hl : label ≠ "") (hA : fs.authFile = some A) :
    ∃ fs', cmdAdd label now fs = Except.ok fs' ∧
      fs'.authFile = some A ∧
      (∃ a ∈ (loadPool fs').accounts, a.auth = A) ∧
      (((∃ a ∈ (loadPool fs).accounts, a.label = label) ∨
        (∃ a ∈ (loadPool fs).accounts,
          a.auth.tokens.account_id = A.tokens.account_id)) →
        (loadPool fs').accounts.length = (loadPool fs).accounts.length) := by
  cases h1 : findWithIdx (fun a => a.label == label) (loadPool fs).accounts with
  | some ie =>
    obtain ⟨hget, hp⟩ := findWithIdx_some h1
    have hlt : ie.1 < (loadPool fs).accounts.length := lt_length_of_getElem? hget
    refine ⟨FS.mk (some (Pool.mk ie.1 ((loadPool fs).accounts.set ie.1 { ie.2 with auth := A, email := extractEmailFromAuth A, plan_type := extractPlanFromAuth A, account_id := A.tokens.account_id }))) (some A), ?_, rfl, ?_, ?_⟩
    · simp only [cmdAdd, if_neg hl, hA, h1]
    · exact ⟨_, mem_of_getElem?' (List.getElem?_set_self hlt), rfl⟩
    · intro _
      show ((loadPool fs).accounts.set ie.1 _).length = (loadPool fs).accounts.length
      exact List.length_set ..
  | none =>
    cases h2 : findWithIdx
        (fun a => a.auth.tokens.account_id == A.tokens.account_id)
        (loadPool fs).accounts with
    | some je =>
      obtain ⟨hget, hp⟩ := findWithIdx_some h2
      have hlt : je.1 < (loadPool fs).accounts.length := lt_length_of_getElem? hget
      refine ⟨FS.mk (some (Pool.mk (loadPool fs).active_index ((loadPool fs).accounts.set je.1 { je.2 with auth := A, email := extractEmailFromAuth A, plan_type := extractPlanFromAuth A }))) (some A), ?_, rfl, ?_, ?_⟩
      · simp only [cmdAdd, if_neg hl, hA, h1, h2]
      · exact ⟨_, mem_of_getElem?' (List.getElem?_set_self hlt), rfl⟩
      · intro _
        show ((loadPool fs).accounts.set je.1 _).length = (loadPool fs).accounts.length
        exact List.length_set ..
    | none =>
      refine ⟨FS.mk (some (Pool.mk (((loadPool fs).accounts ++ [AccountEntry.mk label (extractEmailFromAuth A) A.tokens.account_id (extractPlanFromAuth A) A now]).length - 1) ((loadPool fs).accounts ++ [AccountEntry.mk label (extractEmailFromAuth A) A.tokens.account_id (extractPlanFromAuth A) A now]))) (some A), ?_, rfl, ?_, ?_⟩
      · simp only [cmdAdd, if_neg hl, hA, h1, h2]
      · exact ⟨_, List.mem_append_right _ (List.mem_singleton.mpr rfl), rfl⟩
      · intro hor
        exfalso
        rcases hor with ⟨a, ha, heq⟩ | ⟨a, ha, heq⟩
        · have hfa := findWithIdx_none h1 a ha
          rw [heq] at hfa
          simp at hfa
        · have hfa := findWithIdx_none h2 a ha
          rw [heq] at hfa
          simp at hfa

/-- C5: with the same non-empty label and the same live credential,
running `add` twice leaves the pool size after the second call equal to the
size after the first call (the second call always updates in place). -/
theorem add_idempotent_size (fs : FS) (label now now2 : String) (A : CodexAuth)
    (hl : label ≠ "") (hA : fs.authFile = some A) :
    ∃ fs1 fs2, cmdAdd label now fs = Except.ok fs1 ∧
      cmdAdd label now2 fs1 = Except.ok fs2 ∧
      (loadPool fs2).accounts.length = (loadPool fs1).accounts.length := by
  obtain ⟨fs1, h1, hA1, ⟨a, hamem, haA⟩, _⟩ := cmdAdd_cases label now fs A hl hA
  obtain ⟨fs2, h2, _, _, hng⟩ := cmdAdd_cases label now2 fs1 A hl hA1
  exact ⟨fs1, fs2, h1, h2, hng (Or.inr ⟨a, hamem, by rw [haA]⟩)⟩

/-- C5 witness: adding label "c" twice with the same live credential on a
concrete two-account pool. -/
theorem add_idempotent_size_witness :
    ∃ fs1 fs2, cmdAdd "c" "t2" fsW = Except.ok fs1 ∧
      cmdAdd "c" "t3" fs1 = Except.ok fs2 ∧
      (loadPool fs2).accounts.length = (loadPool fs1).accounts.length :=
  add_idempotent_size fsW "c" "t2" "t3" authA (by decide) rfl

theorem listRowsAux_mem (ai : Nat) (l : List AccountEntry) :
    ∀ (base k : Nat) (a : AccountEntry), l[k]? = some a →
      ((base + k == ai), a) ∈ listRowsAux base ai l := by
  induction l with
  | nil =>
    intro base k a h
    simp at h
  | cons x xs ih =>
    intro base k a h
    cases k with
    | zero =>
      simp only [List.getElem?_cons_zero, Option.some.injEq] at h
      subst h
      rw [listRowsAux, Nat.add_zero]
      exact List.mem_cons_self _ _
    | succ n =>
      simp only [List.getElem?_cons_succ] at h
      rw [listRowsAux]
      have hidx : base + (n + 1) = (base + 1) + n := by omega
      rw [hidx]
      exact List.mem_cons_of_mem _ (ih (base + 1) n a h)

theorem listRows_marks_active (p : Pool) {a : AccountEntry}
    (h : p.accounts[p.active_index]? = some a) :
    (listRows p).any (fun r => r.1 && (r.2.label == a.label)) = true := by
  have hmem := listRowsAux_mem p.active_index p.accounts 0 p.active_index a h
  rw [Nat.zero_add] at hmem
  rw [List.any_eq_true]
  exact ⟨_, hmem, by simp⟩

/-- C4 (amended): after `add label` succeeds, if the label already existed
(case 1) or neither the label nor the embedded account identifier existed
(case 3), the pool contains an entry labelled `label` and the active index
points at it, so an immediately following `list` marks it active.  In the
remaining case — no label match but an entry for the same account under a
different label (case 2) — that entry is updated in place keeping its own
label and the active index and the label sequence are unchanged. -/
theorem add_sets_active_label (fs : FS) (label now : String) (A : CodexAuth)
    (hl : label ≠ "") (hA : fs.authFile = some A) :
    ((∃ a ∈ (loadPool fs).accounts, a.label = label) →
      ∃ fs', cmdAdd label now fs = Except.ok fs' ∧
        activeLabel (loadPool fs') = some label ∧
        (listRows (loadPool fs')).any (fun r => r.1 && (r.2.label == label)) = true) ∧
    ((∀ a ∈ (loadPool fs).accounts, a.label ≠ label ∧
        a.auth.tokens.account_id ≠ A.tokens.account_id) →
      ∃ fs', cmdAdd label now fs = Except.ok fs' ∧
        activeLabel (loadPool fs') = some label ∧
        (listRows (loadPool fs')).any (fun r => r.1 && (r.2.label == label)) = true) ∧
    ((∀ a ∈ (loadPool fs).accounts, a.label ≠ label) →
      (∃ a ∈ (loadPool fs).accounts, a.auth.tokens.account_id = A.tokens.account_id) →
      ∃ fs', cmdAdd label now fs = Except.ok fs' ∧
        (loadPool fs').active_index = (loadPool fs).active_index ∧
        (loadPool fs').accounts.map (fun a => a.label) =
          (loadPool fs).accounts.map (fun a => a.label)) := by
  refine ⟨?_, ?_, ?_⟩
  · -- case 1: the label already exists
    intro ⟨b, hb, hbl⟩
    cases h1 : findWithIdx (fun a => a.label == label) (loadPool fs).accounts with
    | none =>
      have hfa := findWithIdx_none h1 b hb
      rw [hbl] at hfa
      simp at hfa
    | some ie =>
      obtain ⟨hget, hp⟩ := findWithIdx_some h1
      have hlt : ie.1 < (loadPool fs).accounts.length := lt_length_of_getElem? hget
      have hlab : ie.2.label = label := by simpa using hp
      refine ⟨FS.mk (some (Pool.mk ie.1 ((loadPool fs).accounts.set ie.1 { ie.2 with auth := A, email := extractEmailFromAuth A, plan_type := extractPlanFromAuth A, account_id := A.tokens.account_id }))) (some A), ?_, ?_, ?_⟩
      · simp only [cmdAdd, if_neg hl, hA, h1]
      · show ((((loadPool fs).accounts.set ie.1 _)[ie.1]?).map (fun a => a.label)) = some label
        rw [List.getElem?_set_self hlt]
        simpa using hlab
      · have hset : (((loadPool fs).accounts.set ie.1 ({ ie.2 with auth := A, email := extractEmailFromAuth A, plan_type := extractPlanFromAuth A, account_id := A.tokens.account_id })))[ie.1]? = some ({ ie.2 with auth := A, email := extractEmailFromAuth A, plan_type := extractPlanFromAuth A, account_id := A.tokens.account_id }) := List.getElem?_set_self hlt
        have hmark := listRows_marks_active (Pool.mk ie.1 ((loadPool fs).accounts.set ie.1 ({ ie.2 with auth := A, email := extractEmailFromAuth A, plan_type := extractPlanFromAuth A, account_id := A.tokens.account_id }))) hset
        simpa [hlab] using hmark
  · -- case 3: neither the label nor the account identifier exists
    intro hnone
    have h1 : findWithIdx (fun a => a.label == label) (loadPool fs).accounts = none := by
      cases hf : findWithIdx (fun a => a.label == label) (loadPool fs).accounts with
      | none => rfl
      | some q =>
        obtain ⟨hget, hp⟩ := findWithIdx_some hf
        exact absurd (by simpa using hp) (hnone q.2 (mem_of_getElem?' hget)).1
    have h2 : findWithIdx (fun a => a.auth.tokens.account_id == A.tokens.account_id)
        (loadPool fs).accounts = none := by
      cases hf : findWithIdx (fun a => a.auth.tokens.account_id == A.tokens.account_id)
          (loadPool fs).accounts with
      | none => rfl
      | some q =>
        obtain ⟨hget, hp⟩ := findWithIdx_some hf
        exact absurd (by simpa using hp) (hnone q.2 (mem_of_getElem?' hget)).2
    refine ⟨FS.mk (some (Pool.mk (((loadPool fs).accounts ++ [AccountEntry.mk label (extractEmailFromAuth A) A.tokens.account_id (extractPlanFromAuth A) A now]).length - 1) ((loadPool fs).accounts ++ [AccountEntry.mk label (extractEmailFromAuth A) A.tokens.account_id (extractPlanFromAuth A) A now]))) (some A), ?_, ?_, ?_⟩
    · simp only [cmdAdd, if_neg hl, hA, h1, h2]
    · show (((loadPool fs).accounts ++ [AccountEntry.mk label (extractEmailFromAuth A) A.tokens.account_id (extractPlanFromAuth A) A now])[((loadPool fs).accounts ++ [AccountEntry.mk label (extractEmailFromAuth A) A.tokens.account_id (extractPlanFromAuth A) A now]).length - 1]?).map (fun a => a.label) = some label
      rw [List.length_append, List.length_singleton, Nat.add_sub_cancel,
        List.getElem?_concat_length]
      rfl
    · have hset : (((loadPool fs).accounts ++ [AccountEntry.mk label (extractEmailFromAuth A) A.tokens.account_id (extractPlanFromAuth A) A now]))[(((loadPool fs).accounts ++ [AccountEntry.mk label (extractEmailFromAuth A) A.tokens.account_id (extractPlanFromAuth A) A now])).length - 1]? = some (AccountEntry.mk label (extractEmailFromAuth A) A.tokens.account_id (extractPlanFromAuth A) A now) := by
        rw [List.length_append, List.length_singleton, Nat.add_sub_cancel,
          List.getElem?_concat_length]
      have hmark := listRows_marks_active (Pool.mk (((loadPool fs).accounts ++ [AccountEntry.mk label (extractEmailFromAuth A) A.tokens.account_id (extractPlanFromAuth A) A now]).length - 1) ((loadPool fs).accounts ++ [AccountEntry.mk label (extractEmailFromAuth A) A.tokens.account_id (extractPlanFromAuth A) A now])) hset
      simpa using hmark
  · -- case 2: duplicate account under a different label
    intro hnolabel ⟨b, hb, hbid⟩
    have h1 : findWithIdx (fun a => a.label == label) (loadPool fs).accounts = none := by
      cases hf : findWithIdx (fun a => a.label == label) (loadPool fs).accounts with
      | none => rfl
      | some q =>
        obtain ⟨hget, hp⟩ := findWithIdx_some hf
        exact absurd (by simpa using hp) (hnolabel q.2 (mem_of_getElem?' hget))
    cases h2 : findWithIdx (fun a => a.auth.tokens.account_id == A.tokens.account_id)
        (loadPool fs).accounts with
    | none =>
      have hfa := findWithIdx_none h2 b hb
      rw [hbid] at hfa
      simp at hfa
    | some je =>
      obtain ⟨hget, hp⟩ := findWithIdx_some h2
      have hlt : je.1 < (loadPool fs).accounts.length := lt_length_of_getElem? hget
      refine ⟨FS.mk (some (Pool.mk (loadPool fs).active_index ((loadPool fs).accounts.set je.1 { je.2 with auth := A, email := extractEmailFromAuth A, plan_type := extractPlanFromAuth A }))) (some A), ?_, rfl, ?_⟩
      · simp only [cmdAdd, if_neg hl, hA, h1, h2]
      · show ((loadPool fs).accounts.set je.1 _).map (fun a => a.label) =
          (loadPool fs).accounts.map (fun a => a.label)
        rw [List.map_set]
        apply set_getElem?_self
        rw [List.getElem?_map, hget]
        rfl

/-- C4 counterexample: with a pool holding only label "a" for account
"acct-A" and a live credential for that same account, `add "b"` succeeds
but the pool still has no entry labelled "b" and the active entry is still
labelled "a" — the claim's conclusion fails in the duplicate-account
case. -/
theorem add_sets_active_label_counterexample :
    okB (cmdAdd "b" "t9" fsDup) = true ∧
    (loadPool (resultFS (cmdAdd "b" "t9" fsDup) fsDup)).accounts.any
      (fun a => a.label == "b") = false ∧
    activeLabel (loadPool (resultFS (cmdAdd "b" "t9" fsDup) fsDup)) = some "a" :=
  ⟨rfl, rfl, rfl⟩

/-- C4 witness: adding a fresh label with an unpooled credential on a
concrete two-account pool makes that label the active one. -/
theorem add_sets_active_label_witness :
    ∃ fs', cmdAdd "c" "t2" fsMismatch = Except.ok fs' ∧
      activeLabel (loadPool fs') = some "c" ∧
      (listRows (loadPool fs')).any (fun r => r.1 && (r.2.label == "c")) = true :=
  (add_sets_active_label fsMismatch "c" "t2" authX (by decide) rfl).2.1 (by decide)

/-! ## Rotation round-trip (C2) -/

/-- C2 (amended): when the live credential file exists and its embedded
account identifier matches the active entry's (the normal state between
rotations; forced by the counterexample below), `next` then `prev` — and
symmetrically `prev` then `next` — restores both the original active index
and the original live credential file content. -/
theorem next_prev_roundtrip (fs : FS) (p : Pool) (A : CodexAuth) (a : AccountEntry)
    (hp : fs.poolFile = some p) (hA : fs.authFile = some A)
    (h2 : 2 ≤ p.accounts.length)
    (hget : p.accounts[p.active_index]? = some a)
    (hid : a.auth.tokens.account_id = A.tokens.account_id) :
    (∃ fs', (cmdNext fs).bind cmdPrev = Except.ok fs' ∧
      (loadPool fs').active_index = p.active_index ∧ fs'.authFile = some A) ∧
    (∃ fs', (cmdPrev fs).bind cmdNext = Except.ok fs' ∧
      (loadPool fs').active_index = p.active_index ∧ fs'.authFile = some A) := by
  have hload : loadPool fs = p := by simp [loadPool, hp]
  have hai : p.active_index < p.accounts.length := lt_length_of_getElem? hget
  have hrec : reconcile p (some A) =
      { p with accounts := p.accounts.set p.active_index { a with auth := A } } :=
    reconcile_match p A hget hid
  have hsetself : (p.accounts.set p.active_index { a with auth := A })[p.active_index]? =
      some { a with auth := A } := List.getElem?_set_self hai
  constructor
  · -- next then prev
    obtain ⟨e, he, heq⟩ := cmdNext_ok fs (by rw [hload]; exact h2) (by rw [hload]; exact hai)
    rw [hload, hA, hrec] at he heq
    have he1 : (p.accounts.set p.active_index { a with auth := A })[(p.active_index + 1) % p.accounts.length]? = some e := he
    have heq1 : cmdNext fs = Except.ok (FS.mk (some (Pool.mk ((p.active_index + 1) % p.accounts.length) (p.accounts.set p.active_index { a with auth := A }))) (some e.auth)) := heq
    obtain ⟨e2, he2, heq2⟩ := cmdPrev_ok (FS.mk (some (Pool.mk ((p.active_index + 1) % p.accounts.length) (p.accounts.set p.active_index { a with auth := A }))) (some e.auth))
      (by show 2 ≤ (p.accounts.set p.active_index { a with auth := A }).length
          rw [List.length_set]; exact h2)
      (by show (p.active_index + 1) % p.accounts.length <
            (p.accounts.set p.active_index { a with auth := A }).length
          rw [List.length_set]; exact Nat.mod_lt _ (by omega))
    have hrecSelf : reconcile (Pool.mk ((p.active_index + 1) % p.accounts.length) (p.accounts.set p.active_index { a with auth := A })) (some e.auth) = Pool.mk ((p.active_index + 1) % p.accounts.length) (p.accounts.set p.active_index { a with auth := A }) :=
      reconcile_self _ he1
    have he2' : (reconcile (Pool.mk ((p.active_index + 1) % p.accounts.length) (p.accounts.set p.active_index { a with auth := A })) (some e.auth)).accounts[prevIdx ((p.active_index + 1) % p.accounts.length) (p.accounts.set p.active_index { a with auth := A }).length]? = some e2 := he2
    rw [hrecSelf] at he2'
    have he2'' : (p.accounts.set p.active_index { a with auth := A })[prevIdx ((p.active_index + 1) % p.accounts.length) (p.accounts.set p.active_index { a with auth := A }).length]? = some e2 := he2'
    simp only [List.length_set] at he2''
    rw [next_prevIdx p.active_index p.accounts.length h2 hai] at he2''
    rw [hsetself] at he2''
    injection he2'' with hE
    subst hE
    have heq2' : cmdPrev (FS.mk (some (Pool.mk ((p.active_index + 1) % p.accounts.length) (p.accounts.set p.active_index { a with auth := A }))) (some e.auth)) = Except.ok (FS.mk (some (Pool.mk (prevIdx ((p.active_index + 1) % p.accounts.length) (p.accounts.set p.active_index { a with auth := A }).length) (reconcile (Pool.mk ((p.active_index + 1) % p.accounts.length) (p.accounts.set p.active_index { a with auth := A })) (some e.auth)).accounts)) (some ({ a with auth := A } : AccountEntry).auth)) := heq2
    rw [hrecSelf] at heq2'
    have heq2'' : cmdPrev (FS.mk (some (Pool.mk ((p.active_index + 1) % p.accounts.length) (p.accounts.set p.active_index { a with auth := A }))) (some e.auth)) = Except.ok (FS.mk (some (Pool.mk (prevIdx ((p.active_index + 1) % p.accounts.length) (p.accounts.set p.active_index { a with auth := A }).length) (p.accounts.set p.active_index { a with auth := A }))) (some A)) := heq2'
    simp only [List.length_set] at heq2''
    rw [next_prevIdx p.active_index p.accounts.length h2 hai] at heq2''
    refine ⟨FS.mk (some (Pool.mk p.active_index (p.accounts.set p.active_index { a with auth := A }))) (some A), ?_, rfl, rfl⟩
    show (cmdNext fs).bind cmdPrev = _
    rw [heq1]
    exact heq2''
  · -- prev then next
    obtain ⟨e, he, heq⟩ := cmdPrev_ok fs (by rw [hload]; exact h2) (by rw [hload]; exact hai)
    rw [hload, hA, hrec] at he heq
    have he1 : (p.accounts.set p.active_index { a with auth := A })[prevIdx p.active_index p.accounts.length]? = some e := he
    have heq1 : cmdPrev fs = Except.ok (FS.mk (some (Pool.mk (prevIdx p.active_index p.accounts.length) (p.accounts.set p.active_index { a with auth := A }))) (some e.auth)) := heq
    obtain ⟨e2, he2, heq2⟩ := cmdNext_ok (FS.mk (some (Pool.mk (prevIdx p.active_index p.accounts.length) (p.accounts.set p.active_index { a with auth := A }))) (some e.auth))
      (by show 2 ≤ (p.accounts.set p.active_index { a with auth := A }).length
          rw [List.length_set]; exact h2)
      (by show prevIdx p.active_index p.accounts.length <
            (p.accounts.set p.active_index { a with auth := A }).length
          rw [List.length_set]; exact prevIdx_lt _ _ (by omega))
    have hrecSelf : reconcile (Pool.mk (prevIdx p.active_index p.accounts.length) (p.accounts.set p.active_index { a with auth := A })) (some e.auth) = Pool.mk (prevIdx p.active_index p.accounts.length) (p.accounts.set p.active_index { a with auth := A }) :=
      reconcile_self _ he1
    have he2' : (reconcile (Pool.mk (prevIdx p.active_index p.accounts.length) (p.accounts.set p.active_index { a with auth := A })) (some e.auth)).accounts[(prevIdx p.active_index p.accounts.length + 1) % (p.accounts.set p.active_index { a with auth := A }).length]? = some e2 := he2
    rw [hrecSelf] at he2'
    have he2'' : (p.accounts.set p.active_index { a with auth := A })[(prevIdx p.active_index p.accounts.length + 1) % (p.accounts.set p.active_index { a with auth := A }).length]? = some e2 := he2'
    simp only [List.length_set] at he2''
    rw [prevIdx_next p.active_index p.accounts.length h2 hai] at he2''
    rw [hsetself] at he2''
    injection he2'' with hE
    subst hE
    have heq2' : cmdNext (FS.mk (some (Pool.mk (prevIdx p.active_index p.accounts.length) (p.accounts.set p.active_index { a with auth := A }))) (some e.auth)) = Except.ok (FS.mk (some (Pool.mk ((prevIdx p.active_index p.accounts.length + 1) % (p.accounts.set p.active_index { a with auth := A }).length) (reconcile (Pool.mk (prevIdx p.active_index p.accounts.length) (p.accounts.set p.active_index { a with auth := A })) (some e.auth)).accounts)) (some ({ a with auth := A } : AccountEntry).auth)) := heq2
    rw [hrecSelf] at heq2'
    have heq2'' : cmdNext (FS.mk (some (Pool.mk (prevIdx p.active_index p.accounts.length) (p.accounts.set p.active_index { a with auth := A }))) (some e.auth)) = Except.ok (FS.mk (some (Pool.mk ((prevIdx p.active_index p.accounts.length + 1) % (p.accounts.set p.active_index { a with auth := A }).length) (p.accounts.set p.active_index { a with auth := A }))) (some A)) := heq2'
    simp only [List.length_set] at heq2''
    rw [prevIdx_next p.active_index p.accounts.length h2 hai] at heq2''
    refine ⟨FS.mk (some (Pool.mk p.active_index (p.accounts.set p.active_index { a with auth := A }))) (some A), ?_, rfl, rfl⟩
    show (cmdPrev fs).bind cmdNext = _
    rw [heq1]
    exact heq2''

/-- C2 counterexample: with a two-account pool whose live credential file
holds a credential for an account that is not the active entry
("acct-X"), `next` then `prev` succeeds but the live file ends up holding
the active entry's stored credential, not the original content — so the
claim fails for arbitrary live file contents. -/
theorem next_prev_roundtrip_counterexample :
    okB ((cmdNext fsMismatch).bind cmdPrev) = true ∧
    (resultFS ((cmdNext fsMismatch).bind cmdPrev) fsMismatch).authFile ≠
      fsMismatch.authFile := by
  exact ⟨rfl, by decide⟩

/-- C2 witness: the amended statement instantiated at a concrete
two-account pool whose live file matches the active entry. -/
theorem next_prev_roundtrip_witness :
    (∃ fs', (cmdNext fsW).bind cmdPrev = Except.ok fs' ∧
      (loadPool fs').active_index = poolW.active_index ∧ fs'.authFile = some authA) ∧
    (∃ fs', (cmdPrev fsW).bind cmdNext = Except.ok fs' ∧
      (loadPool fs').active_index = poolW.active_index ∧ fs'.authFile = some authA) :=
  next_prev_roundtrip fsW poolW authA entryA rfl rfl (by decide) rfl rfl
